import Mathlib

/-
Shallow embedding of the spatial data-assimilation core of the
moisture-assimilation repository (prototype/kriging_methods.py,
prototype/mean_field_model.py, prototype/run_spatial_model_v1.py).

Python floats are modelled by exact rationals (ℚ); NumPy arrays over the
model grid by functions `ι → ℚ` over an arbitrary grid-index type `ι`
(np.ndindex iterates over all of `ι`); length-N observation arrays by
functions `Fin N → ℚ`; N×N NumPy matrices by `Matrix (Fin N) (Fin N) ℚ`.
Fallible code (IndexError on an empty observation list) is modelled with
`Option`.  `great_circle_distance` and
`construct_spatial_correlation_matrix2` live in modules that are not part
of the sources here (spatial_model_utilities); they are modelled from the
spec, the former as an abstract distance function parameter, the latter
by the spec formula C[i][j] = correlation(distance(i, j)).
-/

open Matrix

/-- The distance-to-correlation decay kernel appearing inline in
`simple_kriging_data_to_model` (kriging_methods.py line 52) and
`universal_kriging_data_to_model` (line 128):
`cc = max(0.8565 - 0.0063 * great_circle_distance(...), 0.0)`. -/
def correlation (d : ℚ) : ℚ := max (0.8565 - 0.0063 * d) 0

/-- An observation record, as consumed by the kriging code: the accessors
mirror the methods called on the elements of `obs_data`
(`get_value`, `get_position`, `get_measurement_variance`,
`get_nearest_grid_point`).  `ι` is the grid-index type. -/
structure Obs (ι : Type) where
  get_value : ℚ
  get_lon : ℚ
  get_lat : ℚ
  get_measurement_variance : ℚ
  get_nearest_grid_point : ι

/-- Station position as a (longitude, latitude) pair, as returned by
`obs.get_position()`. -/
def Obs.get_position {ι : Type} (o : Obs ι) : ℚ × ℚ := (o.get_lon, o.get_lat)

/-- Modelled from the spec: `construct_spatial_correlation_matrix2` is
imported by kriging_methods.py from a module that is not among the given
sources.  The spec (§4.2) describes it as building
C[i][j] = correlation(distance(station_i, station_j)) over the current
station set; the great-circle distance function itself is likewise not
among the sources and is passed in abstractly as
`great_circle_distance lon1 lat1 lon2 lat2`. -/
def construct_spatial_correlation_matrix2
    (great_circle_distance : ℚ → ℚ → ℚ → ℚ → ℚ) {N : ℕ}
    (station_lonlat : Fin N → ℚ × ℚ) : Matrix (Fin N) (Fin N) ℚ :=
  Matrix.of fun i j => correlation (great_circle_distance
    (station_lonlat i).1 (station_lonlat i).2
    (station_lonlat j).1 (station_lonlat j).2)

/-- Model of `np.linalg.inv` over exact rationals: the inverse computed as
adjugate over determinant.  On the invertible matrices (the only inputs on
which the spec's claims rely, and the only ones on which `np.linalg.inv`
succeeds) this is the unique two-sided inverse. -/
def npinv {n : Type} [DecidableEq n] [Fintype n] (A : Matrix n n ℚ) :
    Matrix n n ℚ :=
  A.det⁻¹ • A.adjugate

/-- The observation covariance matrix
`Sigma = oS.T * C * oS + np.diag(measV)` of kriging_methods.py lines
38-40 and 94-96, where `oS = np.diag(obs_stds)` and `C` is the spatial
correlation matrix of the station positions. -/
def sigmaMatrix (great_circle_distance : ℚ → ℚ → ℚ → ℚ → ℚ) {ι : Type}
    {N : ℕ} (obs : Fin N → Obs ι) (obs_stds : Fin N → ℚ) :
    Matrix (Fin N) (Fin N) ℚ :=
  (Matrix.diagonal obs_stds)ᵀ *
      construct_spatial_correlation_matrix2 great_circle_distance
        (fun i => (obs i).get_position) *
      Matrix.diagonal obs_stds +
    Matrix.diagonal (fun i => (obs i).get_measurement_variance)

/-- The per-grid-point covariance vector of kriging_methods.py lines
50-53 and 126-129: `cov[k] = mod_stds[p] * cc * obs_stds[k]` with
`cc = correlation(great_circle_distance(mlons[p], mlats[p], lon_k, lat_k))`. -/
def covVector (great_circle_distance : ℚ → ℚ → ℚ → ℚ → ℚ) {ι : Type}
    {N : ℕ} (mlons mlats : ι → ℚ) (obs : Fin N → Obs ι)
    (obs_stds : Fin N → ℚ) (mod_stds : ι → ℚ) (p : ι) : Fin N → ℚ :=
  fun k => mod_stds p *
    correlation (great_circle_distance (mlons p) (mlats p)
      (obs k).get_lon (obs k).get_lat) *
    obs_stds k

/-- The observation residual vector `res_obs = obs_vals - mu_obs` of
kriging_methods.py line 35, with `mu_obs[i] = mu_mod[gridndx[i]]`. -/
def resVector {ι : Type} {N : ℕ} (obs : Fin N → Obs ι) (mu_mod : ι → ℚ) :
    Fin N → ℚ :=
  fun i => (obs i).get_value - mu_mod (obs i).get_nearest_grid_point

/-- Embedding of `simple_kriging_data_to_model` (kriging_methods.py lines
8-58).  For each grid point p it returns
`K[p] = mu_mod[p] + csi . res_obs` and `V[p] = mod_stds[p]**2 - csi . cov`
with `csi = cov . SigInv` and `SigInv = np.linalg.inv(Sigma)`.  The grid
arrays `wrf_data.get_lons()/get_lats()` are passed as `mlons`/`mlats`; the
diagnostics push of the condition number is a no-op side effect and is
omitted. -/
def simple_kriging_data_to_model (great_circle_distance : ℚ → ℚ → ℚ → ℚ → ℚ)
    {ι : Type} {N : ℕ} (mlons mlats : ι → ℚ) (obs : Fin N → Obs ι)
    (obs_stds : Fin N → ℚ) (mu_mod : ι → ℚ) (mod_stds : ι → ℚ) :
    (ι → ℚ) × (ι → ℚ) :=
  (fun p => mu_mod p +
      (covVector great_circle_distance mlons mlats obs obs_stds mod_stds p ᵥ*
        npinv (sigmaMatrix great_circle_distance obs obs_stds)) ⬝ᵥ
        resVector obs mu_mod,
   fun p => mod_stds p ^ 2 -
      (covVector great_circle_distance mlons mlats obs obs_stds mod_stds p ᵥ*
        npinv (sigmaMatrix great_circle_distance obs obs_stds)) ⬝ᵥ
        covVector great_circle_distance mlons mlats obs obs_stds mod_stds p)

/-- The observation value vector `obs_vals` gathered from the observation
list (kriging_methods.py lines 81-87). -/
def obsValsVec {ι : Type} {N : ℕ} (obs : Fin N → Obs ι) : Fin N → ℚ :=
  fun i => (obs i).get_value

/-- The background field sampled at the nearest grid point of each
observation: `m_pred[i] = m[gridndx[i]]` (kriging_methods.py line 86). -/
def m_predVec {ι : Type} {N : ℕ} (obs : Fin N → Obs ι) (m : ι → ℚ) :
    Fin N → ℚ :=
  fun i => m (obs i).get_nearest_grid_point

/-- The generalized-least-squares trend coefficient of
kriging_methods.py lines 100-101:
`gamma = np.linalg.inv(m_pred.T * SigInv * m_pred) * m_pred.T * SigInv * obs_vals`
(a 1×1 system, so the inverse is a scalar reciprocal). -/
def ukGamma (great_circle_distance : ℚ → ℚ → ℚ → ℚ → ℚ) {ι : Type} {N : ℕ}
    (obs : Fin N → Obs ι) (obs_stds : Fin N → ℚ) (m : ι → ℚ) : ℚ :=
  (m_predVec obs m ⬝ᵥ
      (npinv (sigmaMatrix great_circle_distance obs obs_stds)) *ᵥ
      m_predVec obs m)⁻¹ *
    (m_predVec obs m ⬝ᵥ
      (npinv (sigmaMatrix great_circle_distance obs obs_stds)) *ᵥ
      obsValsVec obs)

/-- The quantity reported as mean absolute prediction error by
`universal_kriging_data_to_model` (kriging_methods.py lines 111-112):
`res_obs = np.asmatrix(obs_vals - mu_obs).T; mape = np.mean(np.abs(res_obs))`.
At this point `obs_vals` is an N×1 matrix (line 91) while `mu_obs` is a
flat length-N array, so NumPy broadcasting makes `obs_vals - mu_obs` an
N×N matrix with entry (j, i) equal to `obs_vals[j] - mu_obs[i]`, and the
mean runs over all N² entries; `mu_obs[i] = m[gridndx[i]] * gamma`
(lines 102-107). -/
def ukMape (great_circle_distance : ℚ → ℚ → ℚ → ℚ → ℚ) {ι : Type} {N : ℕ}
    (obs : Fin N → Obs ι) (obs_stds : Fin N → ℚ) (m : ι → ℚ) : ℚ :=
  (∑ i : Fin N, ∑ j : Fin N,
    |obsValsVec obs j -
      m_predVec obs m i * ukGamma great_circle_distance obs obs_stds m|) /
    ((N : ℚ) * (N : ℚ))

/-- The precomputed scalar `xsx_1 = 1.0 / (xs * obs_vals)` with
`xs = obs_vals.T * SigInv` (kriging_methods.py lines 117-118). -/
def ukXsx1 (great_circle_distance : ℚ → ℚ → ℚ → ℚ → ℚ) {ι : Type} {N : ℕ}
    (obs : Fin N → Obs ι) (obs_stds : Fin N → ℚ) : ℚ :=
  ((obsValsVec obs ᵥ* npinv (sigmaMatrix great_circle_distance obs obs_stds)) ⬝ᵥ
    obsValsVec obs)⁻¹

/-- The universal-kriging estimator field of kriging_methods.py lines
131-132: `csi = SigInv * (cov - obs_vals * xsx_1 * (xs * cov - mu_mod[p]))`
and `K[p] = csi.T * obs_vals`, with `mu_mod = m * gamma`. -/
def ukK (great_circle_distance : ℚ → ℚ → ℚ → ℚ → ℚ) {ι : Type} {N : ℕ}
    (mlons mlats : ι → ℚ) (obs : Fin N → Obs ι) (obs_stds : Fin N → ℚ)
    (m : ι → ℚ) (mod_stds : ι → ℚ) : ι → ℚ :=
  fun p =>
    ((npinv (sigmaMatrix great_circle_distance obs obs_stds)) *ᵥ
      (fun k =>
        covVector great_circle_distance mlons mlats obs obs_stds mod_stds p k -
          obsValsVec obs k * ukXsx1 great_circle_distance obs obs_stds *
            ((obsValsVec obs ᵥ*
                npinv (sigmaMatrix great_circle_distance obs obs_stds)) ⬝ᵥ
              covVector great_circle_distance mlons mlats obs obs_stds mod_stds p -
              m p * ukGamma great_circle_distance obs obs_stds m))) ⬝ᵥ
      obsValsVec obs

/-- The universal-kriging variance field of kriging_methods.py lines
133-134: `tmp = mu_mod[p] - cov.T * SigInv * obs_vals` and
`V[p] = mod_stds[p]**2 - cov.T * SigInv * cov + tmp * xsx_1 * tmp`. -/
def ukV (great_circle_distance : ℚ → ℚ → ℚ → ℚ → ℚ) {ι : Type} {N : ℕ}
    (mlons mlats : ι → ℚ) (obs : Fin N → Obs ι) (obs_stds : Fin N → ℚ)
    (m : ι → ℚ) (mod_stds : ι → ℚ) : ι → ℚ :=
  fun p =>
    mod_stds p ^ 2 -
      covVector great_circle_distance mlons mlats obs obs_stds mod_stds p ⬝ᵥ
        (npinv (sigmaMatrix great_circle_distance obs obs_stds)) *ᵥ
        covVector great_circle_distance mlons mlats obs obs_stds mod_stds p +
      (m p * ukGamma great_circle_distance obs obs_stds m -
          covVector great_circle_distance mlons mlats obs obs_stds mod_stds p ⬝ᵥ
            (npinv (sigmaMatrix great_circle_distance obs obs_stds)) *ᵥ
            obsValsVec obs) *
        ukXsx1 great_circle_distance obs obs_stds *
        (m p * ukGamma great_circle_distance obs obs_stds m -
          covVector great_circle_distance mlons mlats obs obs_stds mod_stds p ⬝ᵥ
            (npinv (sigmaMatrix great_circle_distance obs obs_stds)) *ᵥ
            obsValsVec obs)

/-- The 4-tuple `(K, V, gamma, mape)` returned by
`universal_kriging_data_to_model` (kriging_methods.py line 136). -/
structure UniversalKrigingResult (ι : Type) where
  K : ι → ℚ
  V : ι → ℚ
  gamma : ℚ
  mape : ℚ

/-- Embedding of `universal_kriging_data_to_model` (kriging_methods.py
lines 62-136), assembled from the component definitions above. -/
def universal_kriging_data_to_model
    (great_circle_distance : ℚ → ℚ → ℚ → ℚ → ℚ) {ι : Type} {N : ℕ}
    (mlons mlats : ι → ℚ) (obs : Fin N → Obs ι) (obs_stds : Fin N → ℚ)
    (m : ι → ℚ) (mod_stds : ι → ℚ) : UniversalKrigingResult ι :=
  ⟨ukK great_circle_distance mlons mlats obs obs_stds m mod_stds,
   ukV great_circle_distance mlons mlats obs obs_stds m mod_stds,
   ukGamma great_circle_distance obs obs_stds m,
   ukMape great_circle_distance obs obs_stds m⟩

/-- Embedding of `trend_surface_model_kriging` (kriging_methods.py lines
140-170).  The function unconditionally reads
`sigma2 = obs_data[0].get_measurement_variance()` (line 155), which raises
IndexError on an empty observation list; that failure is modelled as
`none`.  Otherwise it returns `K = mu_mod` unchanged (line 158) and
`V[pos] = sigma2 * (1 + mu_mod[pos] * XtX_1 * mu_mod[pos])` with
`XtX_1 = 1.0 / np.sum(mu_obs * mu_obs)` (lines 161-166); the division is
the exact rational one here (NumPy would produce IEEE inf on a zero
denominator, not an error). -/
def trend_surface_model_kriging {ι : Type} (obs_data : List (Obs ι))
    (mu_mod : ι → ℚ) : Option ((ι → ℚ) × (ι → ℚ)) :=
  match obs_data with
  | [] => none
  | o :: rest =>
    some (mu_mod,
      fun pos => o.get_measurement_variance *
        (1 + mu_mod pos *
          (((o :: rest).map (fun ob =>
            mu_mod ob.get_nearest_grid_point *
              mu_mod ob.get_nearest_grid_point)).sum)⁻¹ *
          mu_mod pos))

/-- The mean-field model state: the scalar `self.gamma`
(mean_field_model.py line 14, initialized to 1.0). -/
structure MeanFieldModel where
  gamma : ℚ

/-- Embedding of `MeanFieldModel.fit_to_data` (mean_field_model.py lines
19-35): uniform weights 1.0, then
`self.gamma = np.sum(weights * modv * obsv) / np.sum(weights * modv ** 2)`
where `modv[i] = E[grid_pts[i]]` and `obsv[i]` is the observed value.
The method overwrites the stored gamma unconditionally; the returned
state is the mutated `self`. -/
def MeanFieldModel.fit_to_data {ι : Type} (_self : MeanFieldModel)
    (E : ι → ℚ) (obs_list : List (Obs ι)) : MeanFieldModel :=
  ⟨((obs_list.map (fun o =>
      1 * E o.get_nearest_grid_point * o.get_value)).sum) /
    ((obs_list.map (fun o =>
      1 * E o.get_nearest_grid_point ^ 2)).sum)⟩

/-- Embedding of `MeanFieldModel.predict_field` (mean_field_model.py
lines 38-42): the scaled background field `gamma * E`. -/
def MeanFieldModel.predict_field {ι : Type} (self : MeanFieldModel)
    (E : ι → ℚ) : ι → ℚ :=
  fun p => self.gamma * E p

/-- State of the scalar `OnlineVarianceEstimator`
(run_spatial_model_v1.py lines 39-76): running mean, accumulated squared
deviation `M2`, and sample count `N`. -/
structure OnlineVarianceEstimator where
  mean : ℚ
  M2 : ℚ
  N : ℕ

/-- Embedding of `OnlineVarianceEstimator.update_with` (lines 55-62):
`N += 1; delta = ndata - mean; mean += delta / N;
M2 += delta * (ndata - mean)` — the last `mean` being the already
updated one. -/
def OnlineVarianceEstimator.update_with (s : OnlineVarianceEstimator)
    (ndata : ℚ) : OnlineVarianceEstimator :=
  ⟨s.mean + (ndata - s.mean) / ((s.N : ℚ) + 1),
   s.M2 + (ndata - s.mean) *
     (ndata - (s.mean + (ndata - s.mean) / ((s.N : ℚ) + 1))),
   s.N + 1⟩

/-- Embedding of `OnlineVarianceEstimator.get_variance` (line 69):
`M2 / (N - 1)`. -/
def OnlineVarianceEstimator.get_variance (s : OnlineVarianceEstimator) : ℚ :=
  s.M2 / ((s.N : ℚ) - 1)

/-- Embedding of `OnlineVarianceEstimator.get_mean` (line 76). -/
def OnlineVarianceEstimator.get_mean (s : OnlineVarianceEstimator) : ℚ :=
  s.mean

/-- The same estimator applied to a whole field at once, as in the run
loop (`mod_re`, `obs_re` in run_spatial_model_v1.py): NumPy array
arithmetic acts elementwise, with the sample count `N` a shared scalar. -/
structure OnlineVarianceEstimatorField (ι : Type) where
  mean : ι → ℚ
  M2 : ι → ℚ
  N : ℕ

/-- Elementwise `update_with` for the field-valued estimator: the same
formulas as the scalar one, applied at each grid index. -/
def OnlineVarianceEstimatorField.update_with {ι : Type}
    (s : OnlineVarianceEstimatorField ι) (ndata : ι → ℚ) :
    OnlineVarianceEstimatorField ι :=
  ⟨fun i => s.mean i + (ndata i - s.mean i) / ((s.N : ℚ) + 1),
   fun i => s.M2 i + (ndata i - s.mean i) *
     (ndata i - (s.mean i + (ndata i - s.mean i) / ((s.N : ℚ) + 1))),
   s.N + 1⟩

/-- Elementwise `get_variance` for the field-valued estimator. -/
def OnlineVarianceEstimatorField.get_variance {ι : Type}
    (s : OnlineVarianceEstimatorField ι) : ι → ℚ :=
  fun i => s.M2 i / ((s.N : ℚ) - 1)

/-- Elementwise `get_mean` for the field-valued estimator. -/
def OnlineVarianceEstimatorField.get_mean {ι : Type}
    (s : OnlineVarianceEstimatorField ι) : ι → ℚ :=
  s.mean

/-- Scalar view of the field-valued estimator at one grid index. -/
def OnlineVarianceEstimatorField.component {ι : Type}
    (s : OnlineVarianceEstimatorField ι) (i : ι) : OnlineVarianceEstimator :=
  ⟨s.mean i, s.M2 i, s.N⟩

/-- Concrete distance function placing every point at distance 0 of every
other, the great-circle distance of a configuration in which all stations
and grid points share one location. -/
def gcZero : ℚ → ℚ → ℚ → ℚ → ℚ := fun _ _ _ _ => 0

/-- Concrete distance function for stations laid out along the equator,
scaled so that longitudes 0 and 1 are 137 km apart. -/
def gcEquator : ℚ → ℚ → ℚ → ℚ → ℚ := fun lon1 _ lon2 _ => 137 * |lon1 - lon2|

/-- One observation of value 3 with measurement variance 0.1435, at the
single grid point of a one-cell grid. -/
def obsW : Fin 1 → Obs (Fin 1) := fun _ => ⟨3, 0, 0, 0.1435, 0⟩

/-- One observation with a synthetic measurement variance of -0.8, used to
drive the simple-kriging variance negative. -/
def obsNeg : Fin 1 → Obs (Fin 1) := fun _ => ⟨0, 0, 0, -0.8, 0⟩

/-- Two observations with values 1 and 3 at the two cells of a two-cell
grid, stations at longitudes 0 and 1 on the equator, each with
measurement variance 0.1435. -/
def obsU : Fin 2 → Obs (Fin 2) :=
  ![⟨1, 0, 0, 0.1435, 0⟩, ⟨3, 1, 0, 0.1435, 1⟩]

/-- Background field taking values 1 and 3 on the two-cell grid. -/
def mfieldU : Fin 2 → ℚ := ![1, 3]

/-- On invertible input, `npinv` agrees with any two-sided inverse: this is
the sense in which it models `np.linalg.inv`. -/
theorem npinv_eq_of {n : Type} [DecidableEq n] [Fintype n]
    {A B : Matrix n n ℚ} (hAB : A * B = 1) (_hBA : B * A = 1) :
    npinv A = B := by
  have hdet : A.det ≠ 0 := by
    intro h
    have hd := congrArg Matrix.det hAB
    rw [Matrix.det_mul, Matrix.det_one, h, zero_mul] at hd
    exact zero_ne_one hd
  have h1 : npinv A * A = 1 := by
    rw [npinv, Matrix.smul_mul, Matrix.adjugate_mul, smul_smul,
      inv_mul_cancel₀ hdet, one_smul]
  calc npinv A = npinv A * (A * B) := by rw [hAB, mul_one]
    _ = npinv A * A * B := by rw [mul_assoc]
    _ = B := by rw [h1, one_mul]

/-- The model of `np.linalg.inv` sends the identity matrix to itself. -/
theorem npinv_one {n : Type} [DecidableEq n] [Fintype n] :
    npinv (1 : Matrix n n ℚ) = 1 := by
  simp [npinv]

/-- C7: the correlation kernel d ↦ max(0.8565 − 0.0063·d, 0) applied to the
grid-point-to-station distances is monotonically non-increasing in d, and
equals exactly 0 for every distance d ≥ 136.0 km, indeed already for every
d ≥ 0.8565/0.0063 (≈ 135.95 km). -/
theorem correlation_kernel_monotone_cutoff :
    (∀ d₁ d₂ : ℚ, d₁ ≤ d₂ → correlation d₂ ≤ correlation d₁) ∧
    (∀ d : ℚ, 136 ≤ d → correlation d = 0) ∧
    (∀ d : ℚ, 0.8565 / 0.0063 ≤ d → correlation d = 0) := by
  refine ⟨fun d₁ d₂ h => ?_, fun d h => ?_, fun d h => ?_⟩
  · exact max_le_max (by linarith) le_rfl
  · exact max_eq_right (by linarith)
  · exact max_eq_right (by nlinarith)

/-- C7 witness: the kernel does not increase from distance 100 to 150 and
vanishes at distance 137. -/
theorem correlation_kernel_monotone_cutoff_applied :
    correlation 150 ≤ correlation 100 ∧ correlation 137 = 0 :=
  ⟨correlation_kernel_monotone_cutoff.1 100 150 (by norm_num),
   correlation_kernel_monotone_cutoff.2.1 137 (by norm_num)⟩

/-- C5 counterexample: on the empty observation list,
`trend_surface_model_kriging` reads the first observation's measurement
variance and fails (IndexError, modelled as `none`); it does not return
the background field, so the claim's "for any input" fails. -/
theorem trend_surface_empty_list_returns_no_field :
    trend_surface_model_kriging ([] : List (Obs (Fin 1))) (fun _ => 0.2) =
      none := rfl

/-- C5 (amended): for every non-empty observation list and background
field, `trend_surface_model_kriging` returns the background field
unchanged as the predictor, and the variance field
V[p] = σ²·(1 + μ[p]²/Σᵢ μ_obsᵢ²) where σ² is the first observation's
measurement variance. -/
theorem trend_surface_nonempty_formula {ι : Type} (o : Obs ι)
    (rest : List (Obs ι)) (mu_mod : ι → ℚ) :
    trend_surface_model_kriging (o :: rest) mu_mod =
      some (mu_mod, fun pos =>
        o.get_measurement_variance *
          (1 + mu_mod pos ^ 2 /
            ((o :: rest).map (fun ob =>
              mu_mod ob.get_nearest_grid_point ^ 2)).sum)) := by
  unfold trend_surface_model_kriging
  simp only [Option.some.injEq, Prod.mk.injEq, true_and]
  funext pos
  rw [show ((o :: rest).map (fun ob =>
        mu_mod ob.get_nearest_grid_point * mu_mod ob.get_nearest_grid_point)) =
      ((o :: rest).map (fun ob => mu_mod ob.get_nearest_grid_point ^ 2)) from by
    congr 1
    funext ob
    rw [pow_two]]
  rw [div_eq_mul_inv]
  ring

/-- C10 counterexample: an observation list whose background samples are
all zero does not reach an error branch — the function still returns a
(K, V) pair (NumPy produces IEEE infinities from the zero denominator
rather than raising). -/
theorem trend_surface_all_zero_background_still_returns :
    (trend_surface_model_kriging
      [(⟨0.3, 0, 0, 0.1, 0⟩ : Obs (Fin 1))] (fun _ => 0)).isSome = true := rfl

/-- C10 (amended): `trend_surface_model_kriging` fails to produce a
(K, V) pair exactly on the empty observation list, where it reads
`obs_data[0]`; every non-empty list, including one with all-zero
background samples, returns a pair. -/
theorem trend_surface_defined_iff_nonempty {ι : Type}
    (obs_data : List (Obs ι)) (mu_mod : ι → ℚ) :
    trend_surface_model_kriging obs_data mu_mod = none ↔ obs_data = [] := by
  cases obs_data <;> simp [trend_surface_model_kriging]

/-- C9: evaluation at the degenerate input.  With an all-zero background
field the fit denominator Σ wᵢ·mᵢ² is zero, and `fit_to_data` still
overwrites the stored gamma (the exact-arithmetic quotient 0/0 is 0 here;
NumPy stores the IEEE quotient NaN): the previous value 1.0 is not kept. -/
theorem mean_field_fit_overwrites_gamma_on_zero_denominator :
    ((⟨1⟩ : MeanFieldModel).fit_to_data (fun _ : Fin 1 => 0)
        [(⟨1, 0, 0, 0.1, 0⟩ : Obs (Fin 1))]).gamma = 0 ∧
    ((⟨1⟩ : MeanFieldModel).fit_to_data (fun _ : Fin 1 => 0)
        [(⟨1, 0, 0, 0.1, 0⟩ : Obs (Fin 1))]).gamma ≠ 1 := by
  constructor
  · simp [MeanFieldModel.fit_to_data]
  · simp [MeanFieldModel.fit_to_data]

/-- Helper for C6: when every observation is exactly γ₀ times the sampled
background, the weighted cross sum is γ₀ times the weighted square sum. -/
theorem fit_sum_proportional {ι : Type} (E : ι → ℚ) (γ₀ : ℚ) :
    ∀ l : List (Obs ι),
      (∀ o ∈ l, o.get_value = γ₀ * E o.get_nearest_grid_point) →
      (l.map (fun o => 1 * E o.get_nearest_grid_point * o.get_value)).sum =
        γ₀ * (l.map (fun o => 1 * E o.get_nearest_grid_point ^ 2)).sum := by
  intro l
  induction l with
  | nil => intro _; simp
  | cons o rest ih =>
    intro h
    simp only [List.map_cons, List.sum_cons]
    rw [h o (List.mem_cons_self o rest),
      ih (fun o' ho' => h o' (List.mem_cons_of_mem o ho'))]
    ring

/-- C6: with uniform unit weights `MeanFieldModel.fit_to_data` sets
γ = Σᵢ(mᵢ·yᵢ) / Σᵢ(mᵢ²), and when yᵢ = γ₀·mᵢ exactly for every
observation the fitted γ equals γ₀ exactly (given the non-degenerate
denominator Σᵢ mᵢ² ≠ 0). -/
theorem mean_field_fit_least_squares {ι : Type} (mfm : MeanFieldModel)
    (E : ι → ℚ) (obs_list : List (Obs ι))
    (h : (obs_list.map (fun o => 1 * E o.get_nearest_grid_point ^ 2)).sum ≠ 0) :
    (mfm.fit_to_data E obs_list).gamma =
      (obs_list.map (fun o => 1 * E o.get_nearest_grid_point * o.get_value)).sum /
        (obs_list.map (fun o => 1 * E o.get_nearest_grid_point ^ 2)).sum ∧
    ∀ γ₀ : ℚ,
      (∀ o ∈ obs_list, o.get_value = γ₀ * E o.get_nearest_grid_point) →
      (mfm.fit_to_data E obs_list).gamma = γ₀ := by
  refine ⟨rfl, fun γ₀ hγ => ?_⟩
  show _ / _ = γ₀
  rw [fit_sum_proportional E γ₀ obs_list hγ, mul_div_assoc, div_self h,
    mul_one]

/-- C6 witness: a single observation of value 2 over a background of 1
recovers γ₀ = 2 exactly. -/
theorem mean_field_fit_least_squares_applied :
    ((⟨1⟩ : MeanFieldModel).fit_to_data (fun _ : Fin 1 => 1)
      [(⟨2, 0, 0, 0.1, 0⟩ : Obs (Fin 1))]).gamma = 2 :=
  (mean_field_fit_least_squares ⟨1⟩ (fun _ : Fin 1 => 1)
      [(⟨2, 0, 0, 0.1, 0⟩ : Obs (Fin 1))] (by norm_num)).2 2 (by
    intro o ho
    rw [List.mem_singleton] at ho
    subst ho
    norm_num)

/-- Helper: on the one-station configuration `obsW` with all distances
zero, unit observation standard deviation and measurement variance
0.1435, the covariance matrix Σ is the 1×1 identity. -/
theorem sigma_obsW : sigmaMatrix gcZero obsW (fun _ : Fin 1 => 1) = 1 := by
  ext i j
  fin_cases i; fin_cases j
  norm_num [sigmaMatrix, construct_spatial_correlation_matrix2, correlation,
    gcZero, obsW, Obs.get_position, Matrix.mul_apply, Matrix.diagonal,
    Fin.sum_univ_one, Matrix.of_apply, Matrix.transpose_apply,
    Matrix.one_apply]

/-- C1: under the precondition that Σ is invertible (B a two-sided inverse
of Σ), `simple_kriging_data_to_model` returns at every grid point p the
simple-kriging estimator K[p] = μ[p] + w·r and variance
V[p] = σ_mod[p]² − w·c, with covariance vector
c_k = σ_mod[p]·max(0.8565 − 0.0063·dist(p, station_k), 0)·σ_obs[k],
weight w = cᵗΣ⁻¹, and r the vector of residuals valueᵢ − μ at observation
i's nearest grid index. -/
theorem simple_kriging_formula (great_circle_distance : ℚ → ℚ → ℚ → ℚ → ℚ)
    {ι : Type} {N : ℕ} (mlons mlats : ι → ℚ) (_hN : 0 < N)
    (obs : Fin N → Obs ι) (obs_stds : Fin N → ℚ) (mu_mod mod_stds : ι → ℚ)
    (B : Matrix (Fin N) (Fin N) ℚ)
    (hB : sigmaMatrix great_circle_distance obs obs_stds * B = 1)
    (hB' : B * sigmaMatrix great_circle_distance obs obs_stds = 1) (p : ι) :
    (simple_kriging_data_to_model great_circle_distance mlons mlats obs
        obs_stds mu_mod mod_stds).1 p =
      mu_mod p +
        (covVector great_circle_distance mlons mlats obs obs_stds mod_stds p
            ᵥ* B) ⬝ᵥ resVector obs mu_mod ∧
    (simple_kriging_data_to_model great_circle_distance mlons mlats obs
        obs_stds mu_mod mod_stds).2 p =
      mod_stds p ^ 2 -
        (covVector great_circle_distance mlons mlats obs obs_stds mod_stds p
            ᵥ* B) ⬝ᵥ
          covVector great_circle_distance mlons mlats obs obs_stds mod_stds p := by
  rw [show B = npinv (sigmaMatrix great_circle_distance obs obs_stds) from
    (npinv_eq_of hB hB').symm]
  exact ⟨rfl, rfl⟩

/-- C1 witness: the formula instantiated on a concrete one-station,
one-cell configuration whose Σ is the identity. -/
theorem simple_kriging_formula_applied :
    (simple_kriging_data_to_model gcZero (fun _ : Fin 1 => 0) (fun _ => 0)
        obsW (fun _ => 1) (fun _ => 2) (fun _ => 1)).1 0 =
      2 + (covVector gcZero (fun _ : Fin 1 => 0) (fun _ => 0) obsW
          (fun _ => 1) (fun _ => 1) 0 ᵥ* (1 : Matrix (Fin 1) (Fin 1) ℚ)) ⬝ᵥ
          resVector obsW (fun _ => 2) ∧
    (simple_kriging_data_to_model gcZero (fun _ : Fin 1 => 0) (fun _ => 0)
        obsW (fun _ => 1) (fun _ => 2) (fun _ => 1)).2 0 =
      1 ^ 2 - (covVector gcZero (fun _ : Fin 1 => 0) (fun _ => 0) obsW
          (fun _ => 1) (fun _ => 1) 0 ᵥ* (1 : Matrix (Fin 1) (Fin 1) ℚ)) ⬝ᵥ
          covVector gcZero (fun _ : Fin 1 => 0) (fun _ => 0) obsW
            (fun _ => 1) (fun _ => 1) 0 :=
  simple_kriging_formula gcZero (fun _ => 0) (fun _ => 0) Nat.one_pos obsW
    (fun _ => 1) (fun _ => 2) (fun _ => 1) 1
    (by rw [sigma_obsW, one_mul]) (by rw [sigma_obsW, mul_one]) 0

/-- C8: evaluation at a failing input.  On a call whose quadratic form
cᵗΣ⁻¹c exceeds σ_mod[p]² (here forced by a synthetic negative measurement
variance; in real runs the spec attributes such excess to floating-point
cancellation), `simple_kriging_data_to_model` returns the raw negative
variance unmodified: no clamping to zero and no flagging happens anywhere
between the kriging computation and run_module's
`models[pos].kalman_update(K[pos], V[pos], 1)`. -/
theorem simple_kriging_returns_negative_variance :
    (simple_kriging_data_to_model gcZero (fun _ : Fin 1 => 0) (fun _ => 0)
        obsNeg (fun _ => 1) (fun _ => 0) (fun _ => 1)).2 0 < 0 := by
  have hS : sigmaMatrix gcZero obsNeg (fun _ : Fin 1 => 1) =
      Matrix.of fun _ _ => (113/2000 : ℚ) := by
    ext i j
    fin_cases i; fin_cases j
    norm_num [sigmaMatrix, construct_spatial_correlation_matrix2, correlation,
      gcZero, obsNeg, Obs.get_position, Matrix.mul_apply, Matrix.diagonal,
      Fin.sum_univ_one, Matrix.of_apply, Matrix.transpose_apply]
  have hInv : npinv (sigmaMatrix gcZero obsNeg (fun _ : Fin 1 => 1)) =
      Matrix.of fun _ _ => (2000/113 : ℚ) := by
    rw [hS]
    simp only [npinv, Matrix.adjugate_fin_one, Matrix.det_fin_one]
    ext i j
    fin_cases i; fin_cases j
    norm_num [Matrix.smul_apply, Matrix.one_apply, Matrix.of_apply]
  simp only [simple_kriging_data_to_model]
  rw [hInv]
  norm_num [covVector, correlation, gcZero, obsNeg, Matrix.vecMul,
    Matrix.dotProduct, Fin.sum_univ_one, Matrix.of_apply]

/-- Helper: on the two-station equatorial configuration `obsU` (137 km
apart, unit observation standard deviations, measurement variances
0.1435), the covariance matrix Σ is the 2×2 identity. -/
theorem sigma_obsU : sigmaMatrix gcEquator obsU (fun _ : Fin 2 => 1) = 1 := by
  ext i j
  fin_cases i <;> fin_cases j <;>
    norm_num [sigmaMatrix, construct_spatial_correlation_matrix2, correlation,
      gcEquator, obsU, Obs.get_position, Matrix.mul_apply, Matrix.diagonal,
      Fin.sum_univ_two, Matrix.of_apply, Matrix.transpose_apply,
      Matrix.one_apply, Matrix.cons_val_zero, Matrix.cons_val_one,
      Matrix.head_cons]

/-- Helper: the fitted trend coefficient on the `obsU` configuration with
background `mfieldU` is exactly 1. -/
theorem ukGamma_obsU :
    ukGamma gcEquator obsU (fun _ : Fin 2 => 1) mfieldU = 1 := by
  simp only [ukGamma, sigma_obsU, npinv_one, Matrix.one_mulVec]
  norm_num [m_predVec, obsValsVec, obsU, mfieldU, Matrix.dotProduct,
    Fin.sum_univ_two, Matrix.cons_val_zero, Matrix.cons_val_one,
    Matrix.head_cons]

/-- C4: evaluation at a failing input.  On the two-observation
configuration `obsU` with background `mfieldU`, the observations lie
exactly on the fitted trend (γ = 1), so the mean absolute residual
claimed by the spec is 0; yet the fourth component returned by
`universal_kriging_data_to_model` is 1, because NumPy broadcasting makes
the residual matrix N×N and the mean run over all N² pairs
|valueⱼ − γ·m_predᵢ|. -/
theorem universal_kriging_mape_pairwise :
    (universal_kriging_data_to_model gcEquator (![0, 1]) (fun _ => 0) obsU
        (fun _ => 1) mfieldU (fun _ => 1)).mape = 1 ∧
    (∑ i : Fin 2, |obsValsVec obsU i -
        (universal_kriging_data_to_model gcEquator (![0, 1]) (fun _ => 0) obsU
            (fun _ => 1) mfieldU (fun _ => 1)).gamma *
          m_predVec obsU mfieldU i|) / 2 = 0 := by
  constructor
  · show ukMape gcEquator obsU (fun _ : Fin 2 => 1) mfieldU = 1
    simp only [ukMape, ukGamma_obsU]
    norm_num [obsValsVec, m_predVec, obsU, mfieldU, Fin.sum_univ_two,
      Matrix.cons_val_zero, Matrix.cons_val_one, Matrix.head_cons]
  · show (∑ i : Fin 2, |obsValsVec obsU i -
        ukGamma gcEquator obsU (fun _ : Fin 2 => 1) mfieldU *
          m_predVec obsU mfieldU i|) / 2 = 0
    simp only [ukGamma_obsU]
    norm_num [obsValsVec, m_predVec, obsU, mfieldU, Fin.sum_univ_two,
      Matrix.cons_val_zero, Matrix.cons_val_one, Matrix.head_cons]

/-- Helper for C3: expansion of a sum of squared deviations about an
arbitrary center. -/
theorem sum_sq_dev (l : List ℚ) (c : ℚ) :
    (l.map (fun v => (v - c) ^ 2)).sum =
      (l.map (fun v => v ^ 2)).sum - 2 * c * l.sum +
        (l.length : ℚ) * c ^ 2 := by
  induction l with
  | nil => simp
  | cons y ys ih =>
    simp only [List.map_cons, List.sum_cons, List.length_cons]
    rw [ih]
    push_cast
    ring

/-- Helper for C3: one `update_with` step preserves the Welford invariant
(mean = S/k, M2 = Σv² − S²/k in terms of the running sum S and running
sum of squares). -/
theorem welford_step (S Q y : ℚ) (k : ℕ) (hk : 1 ≤ k) :
    OnlineVarianceEstimator.update_with ⟨S / (k : ℚ), Q - S ^ 2 / (k : ℚ), k⟩ y =
      ⟨(S + y) / ((k + 1 : ℕ) : ℚ),
       (Q + y ^ 2) - (S + y) ^ 2 / ((k + 1 : ℕ) : ℚ), k + 1⟩ := by
  have hk0 : (k : ℚ) ≠ 0 := by
    have h1 : (1 : ℚ) ≤ (k : ℚ) := by exact_mod_cast hk
    linarith
  have hk1 : (k : ℚ) + 1 ≠ 0 := by positivity
  unfold OnlineVarianceEstimator.update_with
  simp only [OnlineVarianceEstimator.mk.injEq]
  refine ⟨?_, ?_, trivial⟩
  · push_cast
    field_simp
    ring
  · push_cast
    field_simp
    ring

/-- Helper for C3: folding `update_with` over a sample list starting from
a state satisfying the Welford invariant yields the state of the whole
accumulated sample. -/
theorem welford_foldl (xs : List ℚ) :
    ∀ (S Q : ℚ) (k : ℕ), 1 ≤ k →
      List.foldl OnlineVarianceEstimator.update_with
          ⟨S / (k : ℚ), Q - S ^ 2 / (k : ℚ), k⟩ xs =
        ⟨(S + xs.sum) / ((k + xs.length : ℕ) : ℚ),
         (Q + (xs.map (fun v => v ^ 2)).sum) -
           (S + xs.sum) ^ 2 / ((k + xs.length : ℕ) : ℚ),
         k + xs.length⟩ := by
  induction xs with
  | nil =>
    intro S Q k hk
    simp
  | cons y ys ih =>
    intro S Q k hk
    rw [List.foldl_cons, welford_step S Q y k hk,
      ih (S + y) (Q + y ^ 2) (k + 1) (le_trans hk (Nat.le_succ k))]
    have hnat : k + 1 + ys.length = k + (y :: ys).length := by
      simp [List.length_cons]
      omega
    simp only [List.sum_cons, List.map_cons, hnat,
      OnlineVarianceEstimator.mk.injEq]
    refine ⟨by ring, by ring, trivial⟩

/-- Helper for C3, scalar form: an estimator seeded with (x₁, 0, 1) and
updated with x₂, …, xₙ reports the two-pass sample variance and the
arithmetic mean of the whole sequence. -/
theorem welford_scalar_batch (x : ℚ) (xs : List ℚ) (hxs : 1 ≤ xs.length) :
    (List.foldl OnlineVarianceEstimator.update_with ⟨x, 0, 1⟩ xs).get_variance =
      ((x :: xs).map (fun v =>
        (v - (x :: xs).sum / ((x :: xs).length : ℚ)) ^ 2)).sum /
        (((x :: xs).length : ℚ) - 1) ∧
    (List.foldl OnlineVarianceEstimator.update_with ⟨x, 0, 1⟩ xs).get_mean =
      (x :: xs).sum / ((x :: xs).length : ℚ) := by
  have hinit : (⟨x, 0, 1⟩ : OnlineVarianceEstimator) =
      ⟨x / ((1 : ℕ) : ℚ), x ^ 2 - x ^ 2 / ((1 : ℕ) : ℚ), 1⟩ := by
    norm_num
  rw [hinit, welford_foldl xs x (x ^ 2) 1 le_rfl]
  have hL : (1 : ℚ) ≤ (xs.length : ℚ) := by exact_mod_cast hxs
  have hL0 : (xs.length : ℚ) ≠ 0 := by linarith
  have hL1 : (xs.length : ℚ) + 1 ≠ 0 := by positivity
  constructor
  · show ((x ^ 2 + (xs.map (fun v => v ^ 2)).sum) -
        (x + xs.sum) ^ 2 / ((1 + xs.length : ℕ) : ℚ)) /
        (((1 + xs.length : ℕ) : ℚ) - 1) = _
    rw [sum_sq_dev]
    simp only [List.sum_cons, List.length_cons, List.map_cons]
    push_cast
    field_simp
    ring
  · show (x + xs.sum) / ((1 + xs.length : ℕ) : ℚ) = _
    simp only [List.sum_cons, List.length_cons]
    push_cast
    ring

/-- Helper for C3: the field-valued estimator is the scalar estimator
applied elementwise — folding elementwise updates and then projecting at a
grid index equals projecting first and folding the scalar updates. -/
theorem component_foldl {ι : Type} (i : ι) :
    ∀ (xs : List (ι → ℚ)) (s : OnlineVarianceEstimatorField ι),
      (List.foldl OnlineVarianceEstimatorField.update_with s xs).component i =
        List.foldl OnlineVarianceEstimator.update_with (s.component i)
          (xs.map (fun f => f i)) := by
  intro xs
  induction xs with
  | nil => intro s; rfl
  | cons y ys ih =>
    intro s
    rw [List.foldl_cons, List.map_cons, List.foldl_cons, ih]
    rfl

/-- C3: an `OnlineVarianceEstimator` seeded with (mean = x₁, M2 = 0, N = 1)
and updated with x₂, …, xₙ (n ≥ 2) reports from `get_variance` the exact
two-pass batch sample variance Σᵢ(xᵢ − x̄)²/(n − 1) of the whole sequence
and from `get_mean` the arithmetic mean x̄ — both for scalar sequences and
elementwise for field-valued (array) sequences. -/
theorem online_variance_estimator_matches_batch :
    (∀ (x : ℚ) (xs : List ℚ), 1 ≤ xs.length →
      (List.foldl OnlineVarianceEstimator.update_with ⟨x, 0, 1⟩
          xs).get_variance =
        ((x :: xs).map (fun v =>
          (v - (x :: xs).sum / ((x :: xs).length : ℚ)) ^ 2)).sum /
          (((x :: xs).length : ℚ) - 1) ∧
      (List.foldl OnlineVarianceEstimator.update_with ⟨x, 0, 1⟩
          xs).get_mean =
        (x :: xs).sum / ((x :: xs).length : ℚ)) ∧
    (∀ (ι : Type) (x : ι → ℚ) (xs : List (ι → ℚ)) (i : ι), 1 ≤ xs.length →
      (List.foldl OnlineVarianceEstimatorField.update_with
          ⟨x, fun _ => 0, 1⟩ xs).get_variance i =
        ((x i :: xs.map (fun f => f i)).map (fun v =>
          (v - (x i :: xs.map (fun f => f i)).sum /
            ((x i :: xs.map (fun f => f i)).length : ℚ)) ^ 2)).sum /
          (((x i :: xs.map (fun f => f i)).length : ℚ) - 1) ∧
      (List.foldl OnlineVarianceEstimatorField.update_with
          ⟨x, fun _ => 0, 1⟩ xs).get_mean i =
        (x i :: xs.map (fun f => f i)).sum /
          ((x i :: xs.map (fun f => f i)).length : ℚ)) := by
  constructor
  · exact fun x xs h => welford_scalar_batch x xs h
  · intro ι x xs i h
    have hb := welford_scalar_batch (x i) (xs.map (fun f => f i))
      (by simpa using h)
    have hc := component_foldl i xs ⟨x, fun _ => 0, 1⟩
    constructor
    · calc (List.foldl OnlineVarianceEstimatorField.update_with
            ⟨x, fun _ => 0, 1⟩ xs).get_variance i
          = ((List.foldl OnlineVarianceEstimatorField.update_with
              ⟨x, fun _ => 0, 1⟩ xs).component i).get_variance := rfl
        _ = (List.foldl OnlineVarianceEstimator.update_with
              ((⟨x, fun _ => 0, 1⟩ :
                OnlineVarianceEstimatorField ι).component i)
              (xs.map (fun f => f i))).get_variance := by rw [hc]
        _ = _ := hb.1
    · calc (List.foldl OnlineVarianceEstimatorField.update_with
            ⟨x, fun _ => 0, 1⟩ xs).get_mean i
          = ((List.foldl OnlineVarianceEstimatorField.update_with
              ⟨x, fun _ => 0, 1⟩ xs).component i).get_mean := rfl
        _ = (List.foldl OnlineVarianceEstimator.update_with
              ((⟨x, fun _ => 0, 1⟩ :
                OnlineVarianceEstimatorField ι).component i)
              (xs.map (fun f => f i))).get_mean := by rw [hc]
        _ = _ := hb.2

/-- C3 witness: the sequence 1, 2, 3 has mean 2 and sample variance 1,
recovered exactly by the online estimator both as scalars and as
constant one-cell fields. -/
theorem online_variance_estimator_matches_batch_applied :
    ((List.foldl OnlineVarianceEstimator.update_with ⟨1, 0, 1⟩
        [2, 3]).get_variance =
      (([1, 2, 3] : List ℚ).map (fun v =>
        (v - ([1, 2, 3] : List ℚ).sum /
          ((([1, 2, 3] : List ℚ).length : ℚ))) ^ 2)).sum /
        ((([1, 2, 3] : List ℚ).length : ℚ) - 1) ∧
      (List.foldl OnlineVarianceEstimator.update_with ⟨1, 0, 1⟩
        [2, 3]).get_mean =
        ([1, 2, 3] : List ℚ).sum / ((([1, 2, 3] : List ℚ).length : ℚ))) ∧
    ((List.foldl OnlineVarianceEstimatorField.update_with
        (⟨fun _ => 1, fun _ => 0, 1⟩ : OnlineVarianceEstimatorField (Fin 1))
        [fun _ => 2, fun _ => 3]).get_variance 0 =
      (([1, 2, 3] : List ℚ).map (fun v =>
        (v - ([1, 2, 3] : List ℚ).sum /
          ((([1, 2, 3] : List ℚ).length : ℚ))) ^ 2)).sum /
        ((([1, 2, 3] : List ℚ).length : ℚ) - 1) ∧
      (List.foldl OnlineVarianceEstimatorField.update_with
        (⟨fun _ => 1, fun _ => 0, 1⟩ : OnlineVarianceEstimatorField (Fin 1))
        [fun _ => 2, fun _ => 3]).get_mean 0 =
        ([1, 2, 3] : List ℚ).sum / ((([1, 2, 3] : List ℚ).length : ℚ))) :=
  ⟨online_variance_estimator_matches_batch.1 1 [2, 3] (by norm_num),
   online_variance_estimator_matches_batch.2 (Fin 1) (fun _ => 1)
     [fun _ => 2, fun _ => 3] 0 (by norm_num)⟩
